import Mathlib

/-!
Verification development for the hard-coded fully-qualified-name (FQN)
detector of a Dataform SQLX lint suite
(`src/dataform_sqlx_linter/checks/hardcoded_fqns.py`).

The Python module parses each action's compiled SQL with sqlglot, collects
table references in read position, and compares them against the action's
declared dependencies and the graph's declared sources.  We embed:

* the sqlglot expression tree, restricted to the node shapes the check
  inspects (`exp.Table`, `exp.CTE`, `exp.Create`, `exp.Insert`, `exp.Copy`,
  and a generic node for everything else);
* the extraction pipeline `_collect_cte_names`, `_is_write_target`,
  `_normalize_bq_table`, `_extract_read_tables`;
* the graph indexing `_target_to_fqn`, `_index_actions`,
  `_action_query`, `_action_dependencies`;
* the orchestrator `run`.

Node identity (Python `is`) is modelled by tree position: a node is a path
(list of child indices) from the root, and two occurrences are the same
node exactly when their paths are equal.  The external sqlglot parser is a
parameter `parse : String -> Option SqlExpr` (`none` models a parse that
raises).  Loading `compiled_graph.json` is likewise external; `run` takes
the already-loaded graph, which models the branch where loading succeeds.
-/

/-- Expression tree as seen by the check.  `table` carries the strings that
sqlglot exposes as `catalog`, `db` and `name`.  For `create`, `insert` and
`copy`, child 0 is the `this` slot (the statement's target); a missing
`this` is modelled by an empty child list.  `cte` carries its alias string
(sqlglot reports it via `cte.alias`, empty when absent). -/
inductive SqlExpr : Type where
  | table (catalog db name : String)
  | cte (aliasName : String) (children : List SqlExpr)
  | create (children : List SqlExpr)
  | insert (children : List SqlExpr)
  | copy (children : List SqlExpr)
  | other (children : List SqlExpr)


/-- Child list of a node (sqlglot iterates a node's argument values). -/
def SqlExpr.children : SqlExpr → List SqlExpr
  | .table _ _ _ => []
  | .cte _ cs => cs
  | .create cs => cs
  | .insert cs => cs
  | .copy cs => cs
  | .other cs => cs

/-- Subtree at a path of child indices; `none` when the path is invalid. -/
def subtreeAt : SqlExpr → List Nat → Option SqlExpr
  | e, [] => some e
  | e, i :: p =>
    match e.children.get? i with
    | some c => subtreeAt c p
    | none => none

mutual
/-- All node positions in the tree rooted at `e`, where `e` itself sits at
`path` (models sqlglot `walk`/`find_all`, which enumerates every node). -/
def allPosE : SqlExpr → List Nat → List (List Nat)
  | .table _ _ _, path => [path]
  | .cte _ cs, path => path :: allPosL cs 0 path
  | .create cs, path => path :: allPosL cs 0 path
  | .insert cs, path => path :: allPosL cs 0 path
  | .copy cs, path => path :: allPosL cs 0 path
  | .other cs, path => path :: allPosL cs 0 path

/-- Positions contributed by a child list starting at child index `i`. -/
def allPosL : List SqlExpr → Nat → List Nat → List (List Nat)
  | [], _, _ => []
  | c :: cs, i, path => allPosE c (path ++ [i]) ++ allPosL cs (i + 1) path
end

/-- Python `s.strip(c)`: remove every leading and trailing occurrence of
the character `c`. -/
def stripChar (c : Char) (s : String) : String :=
  String.mk (((s.toList.dropWhile (· = c)).reverse.dropWhile (· = c)).reverse)

/-- Backtick stripping, `s.strip` applied to the backtick character. -/
def stripBt (s : String) : String := stripChar (Char.ofNat 96) s

/-- Embeds `_normalize_bq_table`: catalog/db/name with backticks stripped;
empty unless both the dataset and the table name are non-empty. -/
def normalizeBq (catalog db name : String) : String :=
  let proj := stripBt catalog
  let ds := stripBt db
  let nm := stripBt name
  if ds = "" ∨ nm = "" then ""
  else if proj = "" then ds ++ "." ++ nm
  else proj ++ "." ++ ds ++ "." ++ nm

/-- Embeds `_collect_cte_names`: aliases of every CTE node anywhere in the
tree, the empty alias excluded (Python `if alias:`). -/
def cteNames (root : SqlExpr) : Finset String :=
  ((allPosE root []).filterMap (fun p =>
    match subtreeAt root p with
    | some (.cte a _) => if a = "" then none else some a
    | _ => none)).toFinset

/-- Whether the node at path `q` exists and satisfies `pred`. -/
def predAt (root : SqlExpr) (pred : SqlExpr → Bool) (q : List Nat) : Bool :=
  (subtreeAt root q).elim false pred

def isCreateB : SqlExpr → Bool
  | .create _ => true
  | _ => false

def isInsertB : SqlExpr → Bool
  | .insert _ => true
  | _ => false

def isCopyB : SqlExpr → Bool
  | .copy _ => true
  | _ => false

/-- Walk from the parent of the node at `p` (prefix of length `k - 1`)
up to the root, returning the first (i.e. nearest) strict-ancestor path
satisfying `pred`; models sqlglot `find_ancestor`. -/
def nearestGo (root : SqlExpr) (p : List Nat) (pred : SqlExpr → Bool) : Nat → Option (List Nat)
  | 0 => none
  | k + 1 => if predAt root pred (p.take k) then some (p.take k) else nearestGo root p pred k

/-- Nearest strict ancestor of the node at `p` satisfying `pred`. -/
def findAncestorPos (root : SqlExpr) (p : List Nat) (pred : SqlExpr → Bool) : Option (List Nat) :=
  nearestGo root p pred p.length

/-- Embeds `_is_write_target` for the node at path `p`: look for the
nearest enclosing CREATE and, if one exists, answer solely whether this
node is its target slot; otherwise likewise for INSERT, then COPY.
Node identity `create.this is table_expr` becomes path equality with the
ancestor's child-0 path. -/
def isWriteTargetAt (root : SqlExpr) (p : List Nat) : Bool :=
  match findAncestorPos root p isCreateB with
  | some q => decide (p = q ++ [0])
  | none =>
    match findAncestorPos root p isInsertB with
    | some q => decide (p = q ++ [0])
    | none =>
      match findAncestorPos root p isCopyB with
      | some q => decide (p = q ++ [0])
      | none => false

/-- Per-node contribution of the extraction loop in
`_extract_read_tables`: skip CTE-named references, skip write targets,
skip nodes that normalize to the empty identifier, otherwise yield the
normalized identifier. -/
def nodeContribution (root : SqlExpr) (p : List Nat) : Option String :=
  match subtreeAt root p with
  | some (.table c d n) =>
    if n ∈ cteNames root then none
    else if isWriteTargetAt root p then none
    else if normalizeBq c d n = "" then none
    else some (normalizeBq c d n)
  | _ => none

/-- Read-position table identifiers extracted from a parsed tree (the loop
body of `_extract_read_tables`); only table nodes contribute. -/
def extractFromTree (root : SqlExpr) : Finset String :=
  ((allPosE root []).filterMap (fun p => nodeContribution root p)).toFinset

/-- Characters removed by Python `str.strip()` (the `str.isspace` set). -/
def pyIsSpace (c : Char) : Bool :=
  [' ', '\t', '\n', '\x0b', '\x0c', '\r', '\x1c', '\x1d', '\x1e', '\x1f',
   '\u0085', '\u00A0', '\u1680', '\u2028', '\u2029', '\u202F', '\u205F',
   '\u3000'].contains c
  || (decide ('\u2000' ≤ c) && decide (c ≤ '\u200A'))

/-- Embeds `_extract_read_tables`.  The guard `not (sql and sql.strip())`
holds exactly when every character is whitespace (vacuously for the empty
string).  A parser failure (`parse sql = none`, modelling a raised
exception) yields the empty set. -/
def extractReadTables (parse : String → Option SqlExpr) (sql : String) : Finset String :=
  if sql.toList.all pyIsSpace then ∅
  else
    match parse sql with
    | none => ∅
    | some tree => extractFromTree tree

/-- Lexicographic comparison of character lists by code point, the order
Python `sorted` uses on strings. -/
def lexLeB : List Char → List Char → Bool
  | [], _ => true
  | _ :: _, [] => false
  | c :: cs, d :: ds =>
    if c < d then true else if d < c then false else lexLeB cs ds

/-- String comparison by code points (Python `sorted` order). -/
def strLe (a b : String) : Prop := lexLeB a.data b.data = true

instance : DecidableRel strLe := fun a b =>
  inferInstanceAs (Decidable (lexLeB a.data b.data = true))

theorem lexLeB_total : ∀ x y, lexLeB x y = true ∨ lexLeB y x = true := by
  intro x
  induction x with
  | nil => intro y; left; rfl
  | cons c cs ih =>
    intro y
    cases y with
    | nil => right; rfl
    | cons d ds =>
      rcases lt_trichotomy c d with h | h | h
      · left; simp [lexLeB, h]
      · subst h
        rcases ih ds with h2 | h2
        · left; simp [lexLeB, lt_irrefl, h2]
        · right; simp [lexLeB, lt_irrefl, h2]
      · right; simp [lexLeB, h]

theorem lexLeB_trans :
    ∀ x y z, lexLeB x y = true → lexLeB y z = true → lexLeB x z = true := by
  intro x
  induction x with
  | nil => intro y z _ _; rfl
  | cons c cs ih =>
    intro y z hxy hyz
    cases y with
    | nil => simp [lexLeB] at hxy
    | cons d ds =>
      cases z with
      | nil => simp [lexLeB] at hyz
      | cons e es =>
        simp only [lexLeB] at hxy hyz ⊢
        by_cases h1 : c < d
        · by_cases h2 : d < e
          · simp [lt_trans h1 h2]
          · by_cases h3 : e < d
            · simp [h2, h3] at hyz
            · have hde : d = e := le_antisymm (not_lt.1 h3) (not_lt.1 h2)
              subst hde; simp [h1]
        · by_cases h1' : d < c
          · simp [h1, h1'] at hxy
          · have hcd : c = d := le_antisymm (not_lt.1 h1') (not_lt.1 h1)
            subst hcd
            simp only [lt_irrefl, if_false] at hxy
            by_cases h2 : c < e
            · simp [h2]
            · by_cases h3 : e < c
              · simp [h2, h3] at hyz
              · have hce : c = e := le_antisymm (not_lt.1 h3) (not_lt.1 h2)
                subst hce
                simp only [lt_irrefl, if_false] at hyz ⊢
                exact ih ds es hxy hyz

theorem lexLeB_antisymm :
    ∀ x y, lexLeB x y = true → lexLeB y x = true → x = y := by
  intro x
  induction x with
  | nil =>
    intro y _ hyx
    cases y with
    | nil => rfl
    | cons d ds => simp [lexLeB] at hyx
  | cons c cs ih =>
    intro y hxy hyx
    cases y with
    | nil => simp [lexLeB] at hxy
    | cons d ds =>
      simp only [lexLeB] at hxy hyx
      by_cases h1 : c < d
      · simp [h1, asymm h1] at hyx
      · by_cases h2 : d < c
        · simp [h1, h2] at hxy
        · have hcd : c = d := le_antisymm (not_lt.1 h2) (not_lt.1 h1)
          subst hcd
          simp only [lt_irrefl, if_false] at hxy hyx
          rw [ih ds hxy hyx]

theorem strDataEq : ∀ (a b : String), a.data = b.data → a = b :=
  fun ⟨_⟩ ⟨_⟩ h => by cases h; rfl

instance : IsTotal String strLe := ⟨fun a b => lexLeB_total a.data b.data⟩

instance : IsTrans String strLe := ⟨fun a b c => lexLeB_trans a.data b.data c.data⟩

instance : IsAntisymm String strLe :=
  ⟨fun a b h1 h2 => strDataEq a b (lexLeB_antisymm a.data b.data h1 h2)⟩

/-- Sorted list of a finite set of strings in Python `sorted` order
(models `sorted(set)` applied to `to_check` and to each suspect set). -/
def sortedStrings (s : Finset String) : List String :=
  Quotient.liftOn s.val (fun l => List.insertionSort strLe l)
    (fun l1 l2 (h : l1.Perm l2) =>
      List.eq_of_perm_of_sorted
        ((List.perm_insertionSort strLe l1).trans
          (h.trans (List.perm_insertionSort strLe l2).symm))
        (List.sorted_insertionSort strLe l1) (List.sorted_insertionSort strLe l2))

theorem mem_sortedStrings (s : Finset String) (a : String) :
    a ∈ sortedStrings s ↔ a ∈ s := by
  rcases s with ⟨m, hm⟩
  induction m using Quotient.inductionOn with
  | h l =>
    show a ∈ List.insertionSort strLe l ↔ _
    rw [List.mem_insertionSort]
    rfl


/-- A Python value of which the check only distinguishes whether it is a
string (and which string) or something else (of which only truthiness is
observable at the places the check tests it). -/
inductive PyVal : Type where
  | vstr (s : String)
  | vother (truthy : Bool)
deriving DecidableEq

/-- Python truthiness at the points the check evaluates it. -/
def truthyV : PyVal → Bool
  | .vstr s => decide (s ≠ "")
  | .vother t => t

/-- Python `isinstance(v, str)`. -/
def isVStr : PyVal → Bool
  | .vstr _ => true
  | .vother _ => false

/-- String payload of a value, if it is a string. -/
def strOfV : PyVal → Option String
  | .vstr s => some s
  | .vother _ => none

/-- Python `x or y` over possibly-missing values (a missing key reads as
`None`, which is falsy; the result is `y` whenever `x` is falsy). -/
def pyOrV (x : Option PyVal) (y : Option PyVal) : Option PyVal :=
  match x with
  | some v => if truthyV v then some v else y
  | none => y

/-- Python `x or d` for an optional string against a string default
(`None` and the empty string are falsy). -/
def pyOrS (x : Option String) (d : String) : String :=
  match x with
  | some s => if s = "" then d else s
  | none => d

/-- Dataform `target` object as consumed by `_target_to_fqn`: the three
keys read from it, each possibly absent.  `none` at the use sites stands
for an absent/`None`/empty (hence falsy) object, `some` for a non-empty
object, whose relevant keys may still all be absent. -/
structure Target : Type where
  database : Option String
  schema : Option String
  name : Option String
deriving DecidableEq

/-- ActionRec record, restricted to the fields `run` and `_index_actions`
read.  Fields that the code type-tests (`name`/`id`, `fileName`,
`dependencies` entries) are `PyVal`; fields only used through `or`-chains
of strings are optional strings. -/
structure ActionRec : Type where
  name : Option PyVal
  id : Option PyVal
  fileName : Option PyVal
  target : Option Target
  canonicalTarget : Option Target
  query : Option String
  compiledQuery : Option String
  sqlxCompiled : Option String
  dependencies : Option (List PyVal)
deriving DecidableEq

/-- The empty dict `{}`, the default for `by_name.get(action_name, {})`. -/
def defaultAction : ActionRec :=
  ⟨none, none, none, none, none, none, none, none, none⟩

/-- Declared source record (`graph["sources"]` entry): only `target` is
read. -/
structure SourceRec : Type where
  target : Option Target
deriving DecidableEq

/-- Compiled graph, restricted to the collections the check reads.
`sources` models `graph.get("sources", [])`. -/
structure Graph : Type where
  actions : Option (List ActionRec)
  tables : Option (List ActionRec)
  sources : List SourceRec

/-- Embeds `graph.get("actions") or graph.get("tables") or []` (an empty
list is falsy and falls through). -/
def graphActions (g : Graph) : List ActionRec :=
  match g.actions with
  | some l => if l.isEmpty then (g.tables.getD []) else l
  | none => g.tables.getD []

/-- Embeds `_target_to_fqn`: backtick-strip the three components
(`str(target.get(k) or "")`); empty unless schema and name are both
non-empty after stripping; prefix the database only when present. -/
def targetToFqn : Option Target → String
  | none => ""
  | some t =>
    let proj := stripBt (t.database.getD "")
    let ds := stripBt (t.schema.getD "")
    let tbl := stripBt (t.name.getD "")
    if ds = "" ∨ tbl = "" then ""
    else if proj = "" then ds ++ "." ++ tbl
    else proj ++ "." ++ ds ++ "." ++ tbl

/-- Embeds `a.get("name") or a.get("id")` followed by the
`isinstance(name, str)` test: the action's indexing name, if any. -/
def extractName (a : ActionRec) : Option String :=
  match pyOrV a.name a.id with
  | some (.vstr s) => some s
  | _ => none

/-- Embeds `a.get("target") or a.get("canonicalTarget") or {}` (`none`
models the falsy cases, which `targetToFqn` sends to the empty string). -/
def actionTarget (a : ActionRec) : Option Target :=
  match a.target with
  | some t => some t
  | none => a.canonicalTarget

/-- Python-dict lookup over an insertion-ordered association list where a
later binding overwrites an earlier one. -/
def dictGet {α : Type} (l : List (String × α)) (k : String) : Option α :=
  (l.reverse.find? (fun e => e.1 == k)).map (·.2)

/-- Embeds the `by_name` part of the `_index_actions` loop. -/
def indexByName (acts : List ActionRec) : List (String × ActionRec) :=
  acts.foldl
    (fun d a =>
      match extractName a with
      | some nm => d ++ [(nm, a)]
      | none => d)
    []

/-- One action's `name_to_fqn` contribution (the entry is added only when
the FQN is non-empty). -/
def actionFqnEntry (a : ActionRec) : List (String × String) :=
  match extractName a with
  | some nm =>
    if targetToFqn (actionTarget a) = "" then []
    else [(nm, targetToFqn (actionTarget a))]
  | none => []

/-- Embeds the `name_to_fqn` part of the `_index_actions` loop (the loop
appends each action's contribution in order). -/
def indexNameToFqn : List ActionRec → List (String × String)
  | [] => []
  | a :: rest => actionFqnEntry a ++ indexNameToFqn rest

/-- Embeds `by_file.setdefault(fn, []).append(name)`. -/
def byFileAdd (l : List (String × List String)) (fn nm : String) :
    List (String × List String) :=
  if l.any (fun e => e.1 == fn) then
    l.map (fun e => if e.1 == fn then (e.1, e.2 ++ [nm]) else e)
  else l ++ [(fn, [nm])]

/-- Embeds the `by_file` part of the `_index_actions` loop (only actions
with a string `fileName` are grouped). -/
def indexByFile (acts : List ActionRec) : List (String × List String) :=
  acts.foldl
    (fun d a =>
      match extractName a with
      | some nm =>
        match a.fileName with
        | some (.vstr fn) => byFileAdd d fn nm
        | _ => d
      | none => d)
    []

/-- Embeds the `source_fqns` loop of `_index_actions`. -/
def srcFqns (g : Graph) : Finset String :=
  (g.sources.filterMap (fun s =>
    let f := targetToFqn s.target
    if f = "" then none else some f)).toFinset

/-- The four lookup structures `_index_actions` returns. -/
structure GIndex : Type where
  byName : List (String × ActionRec)
  nameToFqn : List (String × String)
  srcSet : Finset String
  byFile : List (String × List String)

/-- Embeds `_index_actions` (the Python builds the four structures in one
loop over the same action list; the per-structure passes are
independent). -/
def buildIndex (g : Graph) : GIndex :=
  { byName := indexByName (graphActions g)
    nameToFqn := indexNameToFqn (graphActions g)
    srcSet := srcFqns g
    byFile := indexByFile (graphActions g) }

/-- Embeds `_action_query`: first non-falsy of the three query fields. -/
def actionSql (a : ActionRec) : String :=
  pyOrS a.query (pyOrS a.compiledQuery (pyOrS a.sqlxCompiled ""))

/-- Embeds `_action_dependencies`: the dependency list is used only when
it is a list whose entries are all strings; otherwise it reads as `[]`. -/
def actionDependencies (a : ActionRec) : List String :=
  match a.dependencies with
  | some l => if l.all isVStr then l.filterMap strOfV else []
  | none => []

/-- Embeds the scoping loop of `run`: union of `by_file[f]` over the given
files that have an entry (`to_check`). -/
def scopedNames (idx : GIndex) (files : List String) : Finset String :=
  files.foldl
    (fun acc f =>
      match dictGet idx.byFile f with
      | some names => acc ∪ names.toFinset
      | none => acc)
    ∅

/-- Embeds `by_name.get(action_name, {})`. -/
def actionOf (idx : GIndex) (nm : String) : ActionRec :=
  (dictGet idx.byName nm).getD defaultAction

/-- Embeds `{name_to_fqn[d] for d in deps if d in name_to_fqn}` (building
the set from the dependency list or from `set(deps)` yields the same
set). -/
def depFqns (idx : GIndex) (a : ActionRec) : Finset String :=
  ((actionDependencies a).filterMap (fun d => dictGet idx.nameToFqn d)).toFinset

/-- Embeds `accounted = set(dep_fqns) | source_fqns`. -/
def accountedOf (idx : GIndex) (a : ActionRec) : Finset String :=
  depFqns idx a ∪ idx.srcSet

/-- Embeds `suspects = {t for t in parsed_tables if t not in accounted}`
for the action checked under name `nm`. -/
def suspectsOf (idx : GIndex) (parse : String → Option SqlExpr) (nm : String) :
    Finset String :=
  extractReadTables parse (actionSql (actionOf idx nm)) \
    accountedOf idx (actionOf idx nm)

/-- Embeds `file_name = a.get("fileName") or action_name`. -/
def fileNameVal (a : ActionRec) (nm : String) : PyVal :=
  match a.fileName with
  | some v => if truthyV v then v else .vstr nm
  | none => .vstr nm

/-- Message of `p.success` when no action is scoped to the given files. -/
def msgNothing : String := "No actions found for provided files; nothing to check."

/-- Message of `p.footer_fail` when findings exist. -/
def msgFail : String := "Some SQLX files use fully-qualified tables instead of ref()."

/-- Message of `p.footer_ok` when no findings exist. -/
def msgOk : String := "No likely hard-coded FQNs found."

/-- The finding line `p.error` emits for one failing action.  `display`
abstracts `_display_name`, a pure function of the file name and the
process working directory, which is fixed for the duration of a run. -/
def findingLine (display : PyVal → String) (idx : GIndex) (nm : String)
    (suspects : Finset String) : String :=
  display (fileNameVal (actionOf idx nm) nm) ++
    ": suspected hard-coded table references (use ref()): " ++
    String.intercalate ", " (sortedStrings suspects)

/-- Main loop and result of `run`, given the built index and the scoped
action-name set: exit status plus the messages printed, in order (the
raw strings handed to the printer; the printer's channel and colour
wrapping are outside the model). -/
def runCore (display : PyVal → String) (parse : String → Option SqlExpr)
    (idx : GIndex) (toCheck : Finset String) : Nat × List String :=
  if toCheck = ∅ then (0, [msgNothing])
  else
    let checked := sortedStrings toCheck
    let lines := checked.filterMap (fun nm =>
      let s := suspectsOf idx parse nm
      if s = ∅ then none else some (findingLine display idx nm s))
    let hasErrors := checked.any (fun nm => decide (suspectsOf idx parse nm ≠ ∅))
    if hasErrors then (1, lines ++ [msgFail]) else (0, lines ++ [msgOk])

/-- Embeds `run` on a successfully loaded graph: the exit status and the
printed messages.  (The `GraphLoadError` branch, reading
`compiled_graph.json` from disk, is outside the model; `run` here is the
successful-load path.) -/
def run (display : PyVal → String) (parse : String → Option SqlExpr)
    (g : Graph) (files : List String) : Nat × List String :=
  runCore display parse (buildIndex g) (scopedNames (buildIndex g) files)

/-- Test fixture: a target with schema and table name only. -/
def tgt (ds nm : String) : Option Target := some ⟨none, some ds, some nm⟩

/-- Test fixture: an action record as the repository test suite builds
them (string name and fileName, a target, a `compiledQuery`). -/
def mkAct (nm fn : String) (t : Option Target) (q : String)
    (deps : Option (List PyVal)) : ActionRec :=
  ⟨some (.vstr nm), none, some (.vstr fn), t, none, none, some q, none, deps⟩

/-- Test fixture: parse trees, as sqlglot produces them, for the SQL texts
of the repository's `test_hardcoded_fqns.py`. -/
def parseT : String → Option SqlExpr := fun s =>
  if s = "select * from ds.b" then some (.other [.table "" "ds" "b"])
  else if s = "select * from ext_ds.missing_dep" then
    some (.other [.table "" "ext_ds" "missing_dep"])
  else if s = "create table ds.x as select * from ds.y" then
    some (.create [.table "" "ds" "x", .other [.table "" "ds" "y"]])
  else if s = "select 1" then some (.other [])
  else none

/-- Test fixture display function. -/
def dispT : PyVal → String := fun v => (strOfV v).getD "x"
/-- Graph of `test_ref_like_dependency_not_flagged`. -/
def gB : Graph :=
  ⟨some [mkAct "b" "definitions/b.sqlx" (tgt "ds" "b") "select 1" none,
         mkAct "a" "definitions/a.sqlx" (tgt "ds" "a") "select * from ds.b" (some [.vstr "b"])], none, []⟩
example : (run dispT parseT gB ["definitions/a.sqlx"]).1 = 0 := by decide
example : (run dispT parseT gB ["definitions/other.sqlx"]) = (0, [msgNothing]) := by decide
/-- Graph of `test_hardcoded_not_declared_flags`. -/
def gD : Graph :=
  ⟨some [mkAct "d" "definitions/d.sqlx" (tgt "ds" "d") "select * from ext_ds.missing_dep" none], none, []⟩
example : (run dispT parseT gD ["definitions/d.sqlx"]).1 = 1 := by decide
example : (run dispT parseT gD ["definitions/d.sqlx"]).2 =
    ["definitions/d.sqlx: suspected hard-coded table references (use ref()): ext_ds.missing_dep", msgFail] := by decide
/-- Graph of `test_sources_are_accounted` (source-declared table). -/
def gC : Graph :=
  ⟨some [mkAct "c" "definitions/c.sqlx" (tgt "ds" "c") "select * from ext_ds.missing_dep" none], none,
   [⟨some ⟨none, some "ext_ds", some "missing_dep"⟩⟩]⟩
example : (run dispT parseT gC ["definitions/c.sqlx"]).1 = 0 := by decide
/-- Graph of `test_ignores_write_targets` (CTAS statement). -/
def gE : Graph :=
  ⟨some [mkAct "f" "definitions/f.sqlx" (tgt "ds" "f") "create table ds.x as select * from ds.y" none], none, []⟩
example : (run dispT parseT gE ["definitions/f.sqlx"]).1 = 1 := by decide
example : suspectsOf (buildIndex gE) parseT "f" = {"ds.y"} := by decide

/-- Claim C5: for every SQL text on which the (BigQuery-dialect) parser
fails — modelled as `parse sql = none`, covering any raised exception —
the extractor returns the empty set; being a total Lean function it never
raises. -/
theorem c5_parse_failure_empty (parse : String → Option SqlExpr) (sql : String)
    (h : parse sql = none) : extractReadTables parse sql = ∅ := by
  unfold extractReadTables
  split
  · rfl
  · rw [h]

theorem c5_witness :
    (fun _ : String => (none : Option SqlExpr)) "select 1 +" = none ∧
      extractReadTables (fun _ => none) "select 1 +" = ∅ :=
  ⟨rfl, c5_parse_failure_empty (fun _ => none) "select 1 +" rfl⟩

/-- Claim C6: for every SQL text that is empty or consists only of
whitespace (Python `str.strip` whitespace), the extractor returns the
empty set without error, whatever the parser would do. -/
theorem c6_blank_empty (parse : String → Option SqlExpr) (sql : String)
    (h : sql = "" ∨ sql.toList.all pyIsSpace = true) :
    extractReadTables parse sql = ∅ := by
  have hall : sql.toList.all pyIsSpace = true := by
    rcases h with h | h
    · subst h; rfl
    · exact h
  unfold extractReadTables
  rw [if_pos hall]

theorem c6_witness :
    ((" \t\n" : String) = "" ∨ (" \t\n").toList.all pyIsSpace = true) ∧
      extractReadTables (fun _ => some (.other [])) " \t\n" = ∅ :=
  ⟨Or.inr (by decide),
    c6_blank_empty (fun _ => some (.other [])) " \t\n" (Or.inr (by decide))⟩

/-- Claim C8: when no indexed action's file is among the input files the
run returns status 0 and prints the nothing-to-check message, which
differs from the all-passed summary. -/
theorem c8_nothing_to_check (display : PyVal → String)
    (parse : String → Option SqlExpr) (g : Graph) (files : List String)
    (h : scopedNames (buildIndex g) files = ∅) :
    run display parse g files = (0, [msgNothing]) ∧ msgNothing ≠ msgOk := by
  constructor
  · show runCore display parse (buildIndex g) (scopedNames (buildIndex g) files) = _
    unfold runCore
    rw [if_pos h]
  · decide

theorem c8_witness :
    scopedNames (buildIndex ⟨none, none, []⟩) ["a.sqlx"] = ∅ ∧
      (run (fun _ => "") (fun _ => none) ⟨none, none, []⟩ ["a.sqlx"] =
          (0, [msgNothing]) ∧ msgNothing ≠ msgOk) :=
  ⟨by decide, c8_nothing_to_check (fun _ => "") (fun _ => none) ⟨none, none, []⟩
    ["a.sqlx"] (by decide)⟩

/-- Claim C2: an identifier extracted from an action's query is never a
suspect when it is the canonical FQN of a declared dependency present in
`name_to_fqn`, or a declared source FQN. -/
theorem c2_accounted_never_suspect (parse : String → Option SqlExpr) (g : Graph)
    (nm I : String)
    (hI : I ∈ extractReadTables parse (actionSql (actionOf (buildIndex g) nm)))
    (hAcc : (∃ d ∈ actionDependencies (actionOf (buildIndex g) nm),
        dictGet (buildIndex g).nameToFqn d = some I) ∨ I ∈ (buildIndex g).srcSet) :
    I ∉ suspectsOf (buildIndex g) parse nm := by
  intro hmem
  rw [suspectsOf, Finset.mem_sdiff] at hmem
  apply hmem.2
  rw [accountedOf, Finset.mem_union]
  rcases hAcc with ⟨d, hd, hlook⟩ | hsrc
  · left
    rw [depFqns, List.mem_toFinset]
    exact List.mem_filterMap.2 ⟨d, hd, hlook⟩
  · right
    exact hsrc

/-- Example parser used by concrete instantiations: parse trees for the
SQL texts appearing in the example graphs (as sqlglot would produce). -/
def egParse : String → Option SqlExpr := fun s =>
  if s = "select * from ds.b" then some (.other [.table "" "ds" "b"])
  else if s = "select 1" then some (.other [])
  else none

/-- Example display function standing in for `_display_name`. -/
def egDisp : PyVal → String := fun v => (strOfV v).getD ""

/-- Example action `b` with target `ds.b`. -/
def egActB : ActionRec :=
  ⟨some (.vstr "b"), none, some (.vstr "b.sqlx"), some ⟨none, some "ds", some "b"⟩,
    none, some "select 1", none, none, none⟩

/-- Example action `a` depending on `b` and reading `ds.b`. -/
def egActA : ActionRec :=
  ⟨some (.vstr "a"), none, some (.vstr "a.sqlx"), some ⟨none, some "ds", some "a"⟩,
    none, some "select * from ds.b", none, none, some [.vstr "b"]⟩

/-- Example graph where `a` declares its dependency on `b`. -/
def egGraphDep : Graph := ⟨some [egActB, egActA], none, []⟩

theorem c2_witness :
    ("ds.b" ∈ extractReadTables egParse
        (actionSql (actionOf (buildIndex egGraphDep) "a"))) ∧
      ((∃ d ∈ actionDependencies (actionOf (buildIndex egGraphDep) "a"),
          dictGet (buildIndex egGraphDep).nameToFqn d = some "ds.b") ∨
        "ds.b" ∈ (buildIndex egGraphDep).srcSet) ∧
      "ds.b" ∉ suspectsOf (buildIndex egGraphDep) egParse "a" :=
  ⟨by decide, Or.inl ⟨"b", by decide, by decide⟩,
    c2_accounted_never_suspect egParse egGraphDep "a" "ds.b" (by decide)
      (Or.inl ⟨"b", by decide, by decide⟩)⟩

/-- Example action like `egActA` but with one non-string entry in its
dependency list next to the well-formed entry `"b"`. -/
def egActBad : ActionRec :=
  ⟨some (.vstr "a"), none, some (.vstr "a.sqlx"), some ⟨none, some "ds", some "a"⟩,
    none, some "select * from ds.b", none, none,
    some [.vstr "b", .vother true]⟩

/-- Example graph where `a` has the malformed dependency list. -/
def egGraphBad : Graph := ⟨some [egActB, egActBad], none, []⟩

/-- Claim C9 counterexample: an action whose dependency list holds the
well-formed string `"b"` next to a non-string entry ends up with no
dependency names at all — the well-formed entry is not retained — and the
run consequently flags `ds.b` (status 1) although `b` is declared and
indexed.  Under the claim the suspect set would have been empty. -/
theorem c9_counterexample :
    (actionOf (buildIndex egGraphBad) "a").dependencies =
        some [PyVal.vstr "b", PyVal.vother true] ∧
      "b" ∉ actionDependencies (actionOf (buildIndex egGraphBad) "a") ∧
      (run egDisp egParse egGraphBad ["a.sqlx"]).1 = 1 := by
  refine ⟨by decide, by decide, by decide⟩

/-- Claim C9 as amended: when an action's dependencies sequence contains a
non-string entry, the whole sequence is discarded — the dependency-name
list used for the accounted set is empty, dropping the well-formed string
entries too; the condition is never fatal (the function totally returns
`[]`). -/
theorem c9_amended_nonstring_drops_all (a : ActionRec) (l : List PyVal)
    (hdep : a.dependencies = some l) (hbad : ∃ v ∈ l, isVStr v = false) :
    actionDependencies a = [] := by
  obtain ⟨v, hv, hnot⟩ := hbad
  unfold actionDependencies
  rw [hdep]
  cases hb : l.all isVStr with
  | false => simp [hb]
  | true => exact absurd (List.all_eq_true.1 hb v hv) (by simp [hnot])

theorem c9_amended_witness :
    egActBad.dependencies = some [PyVal.vstr "b", PyVal.vother true] ∧
      (∃ v ∈ [PyVal.vstr "b", PyVal.vother true], isVStr v = false) ∧
      actionDependencies egActBad = [] :=
  ⟨by decide, ⟨.vother true, by decide, rfl⟩,
    c9_amended_nonstring_drops_all egActBad [PyVal.vstr "b", PyVal.vother true]
      (by decide) ⟨.vother true, by decide, rfl⟩⟩

/-- Names grouped under one file in the index, as a set (`by_file[f]` when
present, empty otherwise). -/
def byFileNames (idx : GIndex) (f : String) : Finset String :=
  match dictGet idx.byFile f with
  | some names => names.toFinset
  | none => ∅

theorem scopedNames_go (idx : GIndex) :
    ∀ (files : List String) (acc : Finset String),
      files.foldl
          (fun acc f =>
            match dictGet idx.byFile f with
            | some names => acc ∪ names.toFinset
            | none => acc)
          acc =
        acc ∪ files.toFinset.biUnion (byFileNames idx) := by
  intro files
  induction files with
  | nil =>
    intro acc
    simp
  | cons f fs ih =>
    intro acc
    rw [List.foldl_cons, ih, List.toFinset_cons, Finset.biUnion_insert]
    have hstep :
        (match dictGet idx.byFile f with
          | some names => acc ∪ names.toFinset
          | none => acc) = acc ∪ byFileNames idx f := by
      unfold byFileNames
      cases dictGet idx.byFile f with
      | some names => rfl
      | none => simp
    rw [hstep, Finset.union_assoc]

theorem scopedNames_eq_biUnion (idx : GIndex) (files : List String) :
    scopedNames idx files = files.toFinset.biUnion (byFileNames idx) := by
  unfold scopedNames
  rw [scopedNames_go idx files ∅, Finset.empty_union]

/-- Claim C10: the run is a function of the set of input file paths: two
file lists with the same distinct paths (any order, any duplication)
produce the same exit status and the same printed messages in the same
order. -/
theorem c10_run_set_of_files (display : PyVal → String)
    (parse : String → Option SqlExpr) (g : Graph) (files1 files2 : List String)
    (h : files1.toFinset = files2.toFinset) :
    run display parse g files1 = run display parse g files2 := by
  unfold run
  rw [scopedNames_eq_biUnion, scopedNames_eq_biUnion, h]

theorem c10_witness :
    (["a.sqlx", "a.sqlx", "b.sqlx"] : List String).toFinset =
        (["b.sqlx", "a.sqlx"] : List String).toFinset ∧
      run egDisp egParse egGraphDep ["a.sqlx", "a.sqlx", "b.sqlx"] =
        run egDisp egParse egGraphDep ["b.sqlx", "a.sqlx"] :=
  ⟨by decide, c10_run_set_of_files egDisp egParse egGraphDep _ _ (by decide)⟩

theorem runCore_fst (display : PyVal → String) (parse : String → Option SqlExpr)
    (idx : GIndex) (tc : Finset String) (h : tc ≠ ∅) :
    (runCore display parse idx tc).1 =
      if (sortedStrings tc).any (fun nm => decide (suspectsOf idx parse nm ≠ ∅))
        then 1 else 0 := by
  unfold runCore
  rw [if_neg h]
  by_cases hb :
      (sortedStrings tc).any (fun nm => decide (suspectsOf idx parse nm ≠ ∅)) = true
  · simp only [hb, if_true]
  · rw [Bool.not_eq_true] at hb
    simp only [hb, if_false, Bool.false_eq_true]

theorem any_suspects_iff (idx : GIndex) (parse : String → Option SqlExpr)
    (tc : Finset String) :
    ((sortedStrings tc).any (fun nm => decide (suspectsOf idx parse nm ≠ ∅)) = true)
      ↔ ∃ nm ∈ tc, suspectsOf idx parse nm ≠ ∅ := by
  rw [List.any_eq_true]
  constructor
  · rintro ⟨nm, hmem, hdec⟩
    exact ⟨nm, (mem_sortedStrings tc nm).1 hmem, of_decide_eq_true hdec⟩
  · rintro ⟨nm, hmem, hne⟩
    exact ⟨nm, (mem_sortedStrings tc nm).2 hmem, decide_eq_true hne⟩

/-- Claim C1: on a loaded graph, whenever at least one action is scoped to
the input files, the run exits 1 exactly when some scoped action has a
non-empty suspect set (`suspectsOf`: extracted reads minus the dependency
FQNs present in `name_to_fqn` united with the source FQNs), and exits 0
exactly otherwise. -/
theorem c1_status_iff_suspects (display : PyVal → String)
    (parse : String → Option SqlExpr) (g : Graph) (files : List String)
    (h : scopedNames (buildIndex g) files ≠ ∅) :
    ((run display parse g files).1 = 1 ↔
        ∃ nm ∈ scopedNames (buildIndex g) files,
          suspectsOf (buildIndex g) parse nm ≠ ∅) ∧
      ((run display parse g files).1 = 0 ↔
        ¬∃ nm ∈ scopedNames (buildIndex g) files,
          suspectsOf (buildIndex g) parse nm ≠ ∅) := by
  have hr : (run display parse g files).1 =
      if (sortedStrings (scopedNames (buildIndex g) files)).any
          (fun nm => decide (suspectsOf (buildIndex g) parse nm ≠ ∅))
        then 1 else 0 :=
    runCore_fst display parse (buildIndex g) (scopedNames (buildIndex g) files) h
  have hany := any_suspects_iff (buildIndex g) parse (scopedNames (buildIndex g) files)
  by_cases hcase : ∃ nm ∈ scopedNames (buildIndex g) files,
      suspectsOf (buildIndex g) parse nm ≠ ∅
  · have h1 : (run display parse g files).1 = 1 := by
      rw [hr, if_pos (hany.2 hcase)]
    exact ⟨⟨fun _ => hcase, fun _ => h1⟩,
      ⟨fun h0 => absurd (h1.symm.trans h0) one_ne_zero, fun hn => absurd hcase hn⟩⟩
  · have h0 : (run display parse g files).1 = 0 := by
      rw [hr, if_neg (fun hb => hcase (hany.1 hb))]
    exact ⟨⟨fun h1 => absurd (h0.symm.trans h1) zero_ne_one, fun hex => absurd hex hcase⟩,
      ⟨fun _ => hcase, fun _ => h0⟩⟩

theorem c1_witness :
    scopedNames (buildIndex egGraphBad) ["a.sqlx"] ≠ ∅ ∧
      (((run egDisp egParse egGraphBad ["a.sqlx"]).1 = 1 ↔
          ∃ nm ∈ scopedNames (buildIndex egGraphBad) ["a.sqlx"],
            suspectsOf (buildIndex egGraphBad) egParse nm ≠ ∅) ∧
        ((run egDisp egParse egGraphBad ["a.sqlx"]).1 = 0 ↔
          ¬∃ nm ∈ scopedNames (buildIndex egGraphBad) ["a.sqlx"],
            suspectsOf (buildIndex egGraphBad) egParse nm ≠ ∅)) :=
  ⟨by decide, c1_status_iff_suspects egDisp egParse egGraphBad ["a.sqlx"] (by decide)⟩

/-- Claim C4: every identifier in the extractor's result comes from some
table node whose bare name is not a CTE alias of the statement (and which
is not a write target and normalizes non-trivially); consequently a table
node whose bare name matches any CTE alias collected anywhere in the
statement — even one naming a distinct real table — contributes nothing
to the result set. -/
theorem c4_cte_named_nodes_excluded (root : SqlExpr) (F : String)
    (h : F ∈ extractFromTree root) :
    ∃ p c d n, subtreeAt root p = some (.table c d n) ∧ n ∉ cteNames root ∧
      isWriteTargetAt root p = false ∧ normalizeBq c d n = F := by
  rw [extractFromTree, List.mem_toFinset, List.mem_filterMap] at h
  obtain ⟨p, _, hc⟩ := h
  unfold nodeContribution at hc
  split at hc
  case _ c d n heq =>
    split_ifs at hc with h1 h2 h3
    exact ⟨p, c, d, n, heq, h1, Bool.not_eq_true _ ▸ eq_false_of_ne_true h2,
      Option.some_injective _ hc⟩
  case _ =>
    exact absurd hc (by simp)

/-- Example statement with a CTE aliased `t`, a table reference whose bare
name collides with that alias, and an unrelated table reference. -/
def egCteTree : SqlExpr :=
  .other [.cte "t" [.table "" "ds" "real"], .table "" "ds" "t", .table "" "ds2" "tb"]

theorem c4_witness :
    "ds2.tb" ∈ extractFromTree egCteTree ∧
      ∃ p c d n, subtreeAt egCteTree p = some (.table c d n) ∧
        n ∉ cteNames egCteTree ∧ isWriteTargetAt egCteTree p = false ∧
        normalizeBq c d n = "ds2.tb" :=
  ⟨by decide, c4_cte_named_nodes_excluded egCteTree "ds2.tb" (by decide)⟩

/-- The claim's notion of write target: the node at `p` occupies the
target slot (child 0) of some enclosing CREATE, INSERT or COPY. -/
def occupiesTargetSlot (root : SqlExpr) (p : List Nat) : Bool :=
  (List.range p.length).any (fun i =>
    predAt root (fun e => isCreateB e || isInsertB e || isCopyB e) (p.take i) &&
      decide (p = p.take i ++ [0]))

/-- Parse tree of `CREATE TABLE ds.x AS SELECT * FROM ds.y`: the CREATE's
target slot holds `ds.x`; the selected source `ds.y` sits inside the
CREATE's expression. -/
def ctasTree : SqlExpr :=
  .create [.table "" "ds" "x", .other [.table "" "ds" "y"]]

/-- A CREATE statement enclosing an INSERT whose target slot holds
`ds.y` (the shape sqlglot gives statements such as a CREATE PROCEDURE
whose body inserts into a table). -/
def nestedDmlTree : SqlExpr :=
  .create [.table "" "ds" "x", .other [.insert [.table "" "ds" "y"]]]

/-- Claim C3 counterexample: in `nestedDmlTree` the node at path
`[1, 0, 0]` is `ds.y` and occupies the target slot of an enclosing INSERT,
yet `_is_write_target` answers false — the enclosing CREATE is found
first and only its target slot is compared — so `ds.y` lands in the
extractor's result instead of being excluded as the claim requires. -/
theorem c3_counterexample :
    subtreeAt nestedDmlTree [1, 0, 0] = some (.table "" "ds" "y") ∧
      occupiesTargetSlot nestedDmlTree [1, 0, 0] = true ∧
      isWriteTargetAt nestedDmlTree [1, 0, 0] = false ∧
      "ds.y" ∈ extractFromTree nestedDmlTree :=
  ⟨rfl, by decide, by decide, by decide⟩

/-- Some strict ancestor of the node at `p` satisfies `pred`. -/
def HasKindAnc (root : SqlExpr) (p : List Nat) (pred : SqlExpr → Bool) : Prop :=
  ∃ i, i < p.length ∧ predAt root pred (p.take i) = true

/-- The node at `q` is the nearest strict ancestor of the node at `p`
satisfying `pred`: it satisfies `pred` and every strictly longer proper
prefix of `p` does not. -/
def IsNearestKindAnc (root : SqlExpr) (p : List Nat) (pred : SqlExpr → Bool)
    (q : List Nat) : Prop :=
  ∃ i, i < p.length ∧ q = p.take i ∧ predAt root pred (p.take i) = true ∧
    ∀ j, i < j → j < p.length → predAt root pred (p.take j) = false

theorem nearestGo_some_iff (root : SqlExpr) (p : List Nat) (pred : SqlExpr → Bool) :
    ∀ (k : Nat) (q : List Nat),
      nearestGo root p pred k = some q ↔
        ∃ i, i < k ∧ q = p.take i ∧ predAt root pred (p.take i) = true ∧
          ∀ j, i < j → j < k → predAt root pred (p.take j) = false := by
  intro k
  induction k with
  | zero => intro q; simp [nearestGo]
  | succ k ih =>
    intro q
    simp only [nearestGo]
    by_cases hk : predAt root pred (p.take k) = true
    · rw [if_pos hk]
      constructor
      · intro hq
        refine ⟨k, Nat.lt_succ_self k, (Option.some_injective _ hq).symm, hk, ?_⟩
        intro j hj1 hj2
        omega
      · rintro ⟨i, hik, hq, hpi, hmax⟩
        rcases Nat.lt_or_ge i k with hlt | hge
        · exact absurd hk (by simp [hmax k hlt (Nat.lt_succ_self k)])
        · have : i = k := by omega
          subst this
          rw [hq]
    · rw [if_neg hk, ih q]
      constructor
      · rintro ⟨i, hik, hq, hpi, hmax⟩
        refine ⟨i, Nat.lt_succ_of_lt hik, hq, hpi, ?_⟩
        intro j hj1 hj2
        rcases Nat.lt_or_ge j k with hlt | hge
        · exact hmax j hj1 hlt
        · have : j = k := by omega
          subst this
          exact eq_false_of_ne_true hk
      · rintro ⟨i, hik, hq, hpi, hmax⟩
        have hik' : i < k := by
          rcases Nat.lt_or_ge i k with hlt | hge
          · exact hlt
          · have : i = k := by omega
            subst this
            exact absurd hpi hk
        exact ⟨i, hik', hq, hpi, fun j hj1 hj2 => hmax j hj1 (Nat.lt_succ_of_lt hj2)⟩

theorem nearestGo_none_iff (root : SqlExpr) (p : List Nat) (pred : SqlExpr → Bool) :
    ∀ k : Nat,
      nearestGo root p pred k = none ↔
        ∀ i, i < k → predAt root pred (p.take i) = false := by
  intro k
  induction k with
  | zero => simp [nearestGo]
  | succ k ih =>
    simp only [nearestGo]
    by_cases hk : predAt root pred (p.take k) = true
    · rw [if_pos hk]
      constructor
      · intro h; exact absurd h (by simp)
      · intro h
        exact absurd hk (by simp [h k (Nat.lt_succ_self k)])
    · rw [if_neg hk, ih]
      constructor
      · intro h i hik
        rcases Nat.lt_or_ge i k with hlt | hge
        · exact h i hlt
        · have : i = k := by omega
          subst this
          exact eq_false_of_ne_true hk
      · intro h i hik
        exact h i (Nat.lt_succ_of_lt hik)

theorem findAncestorPos_some_iff (root : SqlExpr) (p : List Nat)
    (pred : SqlExpr → Bool) (q : List Nat) :
    findAncestorPos root p pred = some q ↔ IsNearestKindAnc root p pred q :=
  nearestGo_some_iff root p pred p.length q

theorem findAncestorPos_none_iff (root : SqlExpr) (p : List Nat)
    (pred : SqlExpr → Bool) :
    findAncestorPos root p pred = none ↔ ¬HasKindAnc root p pred := by
  rw [findAncestorPos, nearestGo_none_iff]
  constructor
  · rintro h ⟨i, hi, hpi⟩
    exact absurd hpi (by simp [h i hi])
  · intro h i hi
    by_contra hne
    exact h ⟨i, hi, by simpa using hne⟩

theorem nearestKindAnc_unique (root : SqlExpr) (p : List Nat)
    (pred : SqlExpr → Bool) (q q' : List Nat)
    (h1 : IsNearestKindAnc root p pred q) (h2 : IsNearestKindAnc root p pred q') :
    q = q' := by
  obtain ⟨i, hi, hq, hpi, hmax⟩ := h1
  obtain ⟨i', hi', hq', hpi', hmax'⟩ := h2
  rcases lt_trichotomy i i' with hlt | heq | hgt
  · exact absurd hpi' (by simp [hmax i' hlt hi'])
  · subst heq; rw [hq, hq']
  · exact absurd hpi (by simp [hmax' i hgt hi])

theorem hasKindAnc_of_nearest (root : SqlExpr) (p : List Nat)
    (pred : SqlExpr → Bool) (q : List Nat)
    (h : IsNearestKindAnc root p pred q) : HasKindAnc root p pred := by
  obtain ⟨i, hi, _, hpi, _⟩ := h
  exact ⟨i, hi, hpi⟩

/-- Amended write-target condition: the CREATE check takes priority — the
node is excluded iff it is the target slot of its nearest enclosing
CREATE when any CREATE encloses it; failing any enclosing CREATE, the
target slot of its nearest enclosing INSERT when any INSERT encloses it;
failing both, the target slot of its nearest enclosing COPY. -/
def AmendedWriteTarget (root : SqlExpr) (p : List Nat) : Prop :=
  (∃ q, IsNearestKindAnc root p isCreateB q ∧ p = q ++ [0]) ∨
    (¬HasKindAnc root p isCreateB ∧
      ∃ q, IsNearestKindAnc root p isInsertB q ∧ p = q ++ [0]) ∨
    (¬HasKindAnc root p isCreateB ∧ ¬HasKindAnc root p isInsertB ∧
      ∃ q, IsNearestKindAnc root p isCopyB q ∧ p = q ++ [0])

/-- Claim C3 as amended: a table node is excluded as a write target iff
the prioritized condition of `AmendedWriteTarget` holds (nearest enclosing
CREATE's target slot when a CREATE encloses the node; otherwise nearest
enclosing INSERT's; otherwise nearest enclosing COPY's); in particular,
for `CREATE TABLE ds.x AS SELECT * FROM ds.y` the result set never
contains `ds.x` and does contain `ds.y`. -/
theorem c3_amended_write_target_priority :
    (∀ (root : SqlExpr) (p : List Nat),
        isWriteTargetAt root p = true ↔ AmendedWriteTarget root p) ∧
      "ds.x" ∉ extractFromTree ctasTree ∧ "ds.y" ∈ extractFromTree ctasTree := by
  refine ⟨?_, by decide, by decide⟩
  intro root p
  unfold isWriteTargetAt
  cases hcr : findAncestorPos root p isCreateB with
  | some q =>
    have hnear := (findAncestorPos_some_iff root p isCreateB q).1 hcr
    constructor
    · intro hd
      exact Or.inl ⟨q, hnear, of_decide_eq_true hd⟩
    · rintro (⟨q', hnear', hp⟩ | ⟨hno, _⟩ | ⟨hno, _, _⟩)
      · show decide (p = q ++ [0]) = true
        rw [nearestKindAnc_unique root p isCreateB q q' hnear hnear']
        exact decide_eq_true hp
      · exact absurd (hasKindAnc_of_nearest root p isCreateB q hnear) hno
      · exact absurd (hasKindAnc_of_nearest root p isCreateB q hnear) hno
  | none =>
    have hnoCr := (findAncestorPos_none_iff root p isCreateB).1 hcr
    cases hin : findAncestorPos root p isInsertB with
    | some q =>
      have hnear := (findAncestorPos_some_iff root p isInsertB q).1 hin
      constructor
      · intro hd
        exact Or.inr (Or.inl ⟨hnoCr, q, hnear, of_decide_eq_true hd⟩)
      · rintro (⟨q', hnear', _⟩ | ⟨_, q', hnear', hp⟩ | ⟨_, hno, _⟩)
        · exact absurd (hasKindAnc_of_nearest root p isCreateB q' hnear') hnoCr
        · show decide (p = q ++ [0]) = true
          rw [nearestKindAnc_unique root p isInsertB q q' hnear hnear']
          exact decide_eq_true hp
        · exact absurd (hasKindAnc_of_nearest root p isInsertB q hnear) hno
    | none =>
      have hnoIn := (findAncestorPos_none_iff root p isInsertB).1 hin
      cases hcp : findAncestorPos root p isCopyB with
      | some q =>
        have hnear := (findAncestorPos_some_iff root p isCopyB q).1 hcp
        constructor
        · intro hd
          exact Or.inr (Or.inr ⟨hnoCr, hnoIn, q, hnear, of_decide_eq_true hd⟩)
        · rintro (⟨q', hnear', _⟩ | ⟨_, q', hnear', _⟩ | ⟨_, _, q', hnear', hp⟩)
          · exact absurd (hasKindAnc_of_nearest root p isCreateB q' hnear') hnoCr
          · exact absurd (hasKindAnc_of_nearest root p isInsertB q' hnear') hnoIn
          · show decide (p = q ++ [0]) = true
            rw [nearestKindAnc_unique root p isCopyB q q' hnear hnear']
            exact decide_eq_true hp
      | none =>
        have hnoCp := (findAncestorPos_none_iff root p isCopyB).1 hcp
        constructor
        · intro hd
          exact absurd hd (by simp)
        · rintro (⟨q', hnear', _⟩ | ⟨_, q', hnear', _⟩ | ⟨_, _, q', hnear', _⟩)
          · exact absurd (hasKindAnc_of_nearest root p isCreateB q' hnear') hnoCr
          · exact absurd (hasKindAnc_of_nearest root p isInsertB q' hnear') hnoIn
          · exact absurd (hasKindAnc_of_nearest root p isCopyB q' hnear') hnoCp

theorem dictGet_append {α : Type} (l1 l2 : List (String × α)) (k : String) :
    dictGet (l1 ++ l2) k = (dictGet l2 k).or (dictGet l1 k) := by
  simp only [dictGet, List.reverse_append, List.find?_append]
  cases List.find? (fun e => e.1 == k) l2.reverse <;> rfl

theorem dictGet_singleton {α : Type} (k : String) (v : α) :
    dictGet [(k, v)] k = some v := by
  simp [dictGet]

theorem dictGet_singleton_ne {α : Type} (k k' : String) (v : α) (h : k' ≠ k) :
    dictGet [(k', v)] k = none := by
  simp [dictGet, h]

theorem or_none_eq {α : Type} (o : Option α) : o.or none = o := by
  cases o <;> rfl

theorem dictGet_indexNameToFqn_eq_none (acts : List ActionRec) (nm : String)
    (h : nm ∉ acts.filterMap extractName) :
    dictGet (indexNameToFqn acts) nm = none := by
  induction acts with
  | nil => rfl
  | cons b rest ih =>
    rw [indexNameToFqn, dictGet_append]
    have hrest : nm ∉ rest.filterMap extractName := by
      intro hmem
      rcases List.mem_filterMap.1 hmem with ⟨a, ha, hfa⟩
      exact h (List.mem_filterMap.2 ⟨a, List.mem_cons_of_mem b ha, hfa⟩)
    rw [ih hrest]
    show dictGet (actionFqnEntry b) nm = none
    unfold actionFqnEntry
    cases hb : extractName b with
    | none => rfl
    | some nmb =>
      have hne : nmb ≠ nm := by
        intro hEq
        subst hEq
        exact h (List.mem_filterMap.2 ⟨b, List.mem_cons_self b rest, hb⟩)
      show dictGet (if targetToFqn (actionTarget b) = "" then []
        else [(nmb, targetToFqn (actionTarget b))]) nm = none
      by_cases hf : targetToFqn (actionTarget b) = ""
      · rw [if_pos hf]; rfl
      · rw [if_neg hf]
        exact dictGet_singleton_ne nm nmb _ hne

theorem dictGet_indexNameToFqn_of_mem (acts : List ActionRec) (a : ActionRec)
    (nm : String) (ha : a ∈ acts) (hnm : extractName a = some nm)
    (hnd : (acts.filterMap extractName).Nodup) :
    dictGet (indexNameToFqn acts) nm =
      if targetToFqn (actionTarget a) = "" then none
      else some (targetToFqn (actionTarget a)) := by
  induction acts with
  | nil => cases ha
  | cons b rest ih =>
    rw [indexNameToFqn, dictGet_append]
    rcases List.mem_cons.1 ha with hab | harest
    · subst hab
      have hfm : (a :: rest).filterMap extractName =
          nm :: rest.filterMap extractName := by
        simp [List.filterMap_cons, hnm]
      rw [hfm] at hnd
      rw [dictGet_indexNameToFqn_eq_none rest nm (List.nodup_cons.1 hnd).1]
      show dictGet (actionFqnEntry a) nm = _
      unfold actionFqnEntry
      rw [hnm]
      show dictGet (if targetToFqn (actionTarget a) = "" then []
          else [(nm, targetToFqn (actionTarget a))]) nm =
        if targetToFqn (actionTarget a) = "" then none
        else some (targetToFqn (actionTarget a))
      by_cases hf : targetToFqn (actionTarget a) = ""
      · rw [if_pos hf, if_pos hf]; rfl
      · rw [if_neg hf, if_neg hf]
        exact dictGet_singleton nm _
    · have hnmtail : nm ∈ rest.filterMap extractName :=
        List.mem_filterMap.2 ⟨a, harest, hnm⟩
      have hndtail : (rest.filterMap extractName).Nodup := by
        cases hb : extractName b with
        | none => simpa [List.filterMap_cons, hb] using hnd
        | some nmb =>
          exact (List.nodup_cons.1 (by simpa [List.filterMap_cons, hb] using hnd)).2
      have hbnone : dictGet (actionFqnEntry b) nm = none := by
        unfold actionFqnEntry
        cases hb : extractName b with
        | none => rfl
        | some nmb =>
          have hne : nmb ≠ nm := by
            intro hEq
            subst hEq
            exact (List.nodup_cons.1
              (by simpa [List.filterMap_cons, hb] using hnd)).1 hnmtail
          show dictGet (if targetToFqn (actionTarget b) = "" then []
            else [(nmb, targetToFqn (actionTarget b))]) nm = none
          by_cases hf : targetToFqn (actionTarget b) = ""
          · rw [if_pos hf]; rfl
          · rw [if_neg hf]
            exact dictGet_singleton_ne nm nmb _ hne
      rw [ih harest hndtail, hbnone, or_none_eq]

theorem dotted_append_ne_empty (x z : String) : x ++ "." ++ z ≠ "" := by
  intro h
  have hd := congrArg String.data h
  rw [String.data_append, String.data_append] at hd
  simp at hd

/-- Claim C7: under the data-model invariant that action names are unique,
`name_to_fqn` holds an entry for an indexed action's name exactly when the
resolved target's backtick-stripped schema and table name are both
non-empty; the entry's value is `database.schema.name` when a stripped
database is present, else `schema.name`; without a schema or a table name
there is no entry even when a database is present (the FQN is empty). -/
theorem c7_name_to_fqn_entry (g : Graph) (a : ActionRec) (nm : String)
    (ha : a ∈ graphActions g) (hnm : extractName a = some nm)
    (hnd : ((graphActions g).filterMap extractName).Nodup) :
    (dictGet (buildIndex g).nameToFqn nm =
        if targetToFqn (actionTarget a) = "" then none
        else some (targetToFqn (actionTarget a))) ∧
      (targetToFqn (actionTarget a) ≠ "" ↔
        ∃ t, actionTarget a = some t ∧ stripBt (t.schema.getD "") ≠ "" ∧
          stripBt (t.name.getD "") ≠ "") ∧
      (∀ t, actionTarget a = some t → stripBt (t.schema.getD "") ≠ "" →
        stripBt (t.name.getD "") ≠ "" →
        targetToFqn (actionTarget a) =
          if stripBt (t.database.getD "") = ""
          then stripBt (t.schema.getD "") ++ "." ++ stripBt (t.name.getD "")
          else stripBt (t.database.getD "") ++ "." ++ stripBt (t.schema.getD "") ++
            "." ++ stripBt (t.name.getD "")) := by
  refine ⟨dictGet_indexNameToFqn_of_mem (graphActions g) a nm ha hnm hnd, ?_, ?_⟩
  · cases ht : actionTarget a with
    | none =>
      simp [targetToFqn]
    | some t =>
      show (if stripBt (t.schema.getD "") = "" ∨ stripBt (t.name.getD "") = ""
          then ""
          else if stripBt (t.database.getD "") = ""
            then stripBt (t.schema.getD "") ++ "." ++ stripBt (t.name.getD "")
            else stripBt (t.database.getD "") ++ "." ++ stripBt (t.schema.getD "") ++
              "." ++ stripBt (t.name.getD "")) ≠ "" ↔ _
      by_cases hcond : stripBt (t.schema.getD "") = "" ∨ stripBt (t.name.getD "") = ""
      · rw [if_pos hcond]
        constructor
        · intro h
          exact absurd rfl h
        · rintro ⟨t', ht', h1, h2⟩
          rw [Option.some_inj] at ht'
          subst ht'
          rcases hcond with hc | hc
          · exact absurd hc h1
          · exact absurd hc h2
      · rw [if_neg hcond]
        push_neg at hcond
        constructor
        · intro _
          exact ⟨t, rfl, hcond.1, hcond.2⟩
        · intro _
          by_cases hp : stripBt (t.database.getD "") = ""
          · rw [if_pos hp]
            exact dotted_append_ne_empty _ _
          · rw [if_neg hp]
            exact dotted_append_ne_empty _ _
  · intro t ht hds htb
    rw [ht]
    show (if stripBt (t.schema.getD "") = "" ∨ stripBt (t.name.getD "") = ""
        then ""
        else if stripBt (t.database.getD "") = ""
          then stripBt (t.schema.getD "") ++ "." ++ stripBt (t.name.getD "")
          else stripBt (t.database.getD "") ++ "." ++ stripBt (t.schema.getD "") ++
            "." ++ stripBt (t.name.getD "")) = _
    rw [if_neg (by simp [hds, htb])]

theorem c7_witness :
    egActA ∈ graphActions egGraphDep ∧ extractName egActA = some "a" ∧
      ((graphActions egGraphDep).filterMap extractName).Nodup ∧
      (dictGet (buildIndex egGraphDep).nameToFqn "a" =
          if targetToFqn (actionTarget egActA) = "" then none
          else some (targetToFqn (actionTarget egActA))) :=
  ⟨by decide, by decide, by decide,
    (c7_name_to_fqn_entry egGraphDep egActA "a" (by decide) (by decide) (by decide)).1⟩
